import Mathlib

set_option maxRecDepth 100000

/-!
# Formal model of the `x_content_agent` repository

Shallow embedding of the pure computational core of the repository
(quality-guard tools, ranker shortlisting, weekly scheduler, HTTP retry
loop, pipeline payload decoding and quality-result resolution, and the
shared utility functions), together with theorems settling the spec
claims about it.

Python strings are modelled as Lean `String` / `List Char`; Python `int`
as `Int`/`Nat`; byte strings as `List Nat` (each entry a byte value);
fallible operations return `Option`/`Except`.
-/

namespace XCC

/-! ## Python string helpers (`str.strip`)

`str.strip()` with no argument removes leading and trailing whitespace.
We model the ASCII whitespace characters (space, tab, LF, CR, VT, FF);
the Unicode-only whitespace code points that Python also strips play no
role in this repository's data. -/

def isPySpace (c : Char) : Bool :=
  c = ' ' || c = '\t' || c = '\n' || c = '\r' || c = '\x0b' || c = '\x0c'

/-- `str.strip()` on a character list: drop the leading run of whitespace,
then the trailing run. -/
def pyStripChars (l : List Char) : List Char :=
  ((l.dropWhile isPySpace).reverse.dropWhile isPySpace).reverse

/-- `str.strip()` on a `String`. -/
def pyStrip (s : String) : String :=
  String.mk (pyStripChars s.data)

theorem pyStripChars_eq_rdropWhile (l : List Char) :
    pyStripChars l = List.rdropWhile isPySpace (l.dropWhile isPySpace) := by
  simp [pyStripChars, List.rdropWhile]

theorem dropWhile_cons_self_of_head {p : Char → Bool} {a : Char} {l : List Char}
    (h : p a = false) : (a :: l).dropWhile p = a :: l := by
  simp [List.dropWhile, h]

theorem head_false_of_dropWhile_cons_self {p : Char → Bool} {a : Char} {l : List Char}
    (h : (a :: l).dropWhile p = a :: l) : p a = false := by
  by_contra hpa
  have hpa' : p a = true := by revert hpa; cases p a <;> simp
  rw [List.dropWhile_cons, hpa'] at h
  simp only [if_true] at h
  have hlen := congrArg List.length h
  have hle : (l.dropWhile p).length ≤ l.length := (List.dropWhile_sublist p).length_le
  simp at hlen
  omega

theorem dropWhile_rdropWhile_of_self {p : Char → Bool} {d : List Char}
    (hself : d.dropWhile p = d) :
    (List.rdropWhile p d).dropWhile p = List.rdropWhile p d := by
  rcases heq : List.rdropWhile p d with _ | ⟨a, r⟩
  · rfl
  · have hpre : List.rdropWhile p d <+: d := List.rdropWhile_prefix p d
    rw [heq] at hpre
    obtain ⟨t, ht⟩ := hpre
    have h2 : (a :: (r ++ t)).dropWhile p = a :: (r ++ t) := by
      have ht' : a :: (r ++ t) = d := by simpa using ht
      rw [ht']; exact hself
    exact dropWhile_cons_self_of_head (head_false_of_dropWhile_cons_self h2)

/-- `str.strip()` is idempotent. -/
theorem pyStripChars_idempotent (l : List Char) :
    pyStripChars (pyStripChars l) = pyStripChars l := by
  have hself : (l.dropWhile isPySpace).dropWhile isPySpace = l.dropWhile isPySpace :=
    List.dropWhile_idempotent isPySpace l
  calc pyStripChars (pyStripChars l)
      = List.rdropWhile isPySpace ((pyStripChars l).dropWhile isPySpace) :=
        pyStripChars_eq_rdropWhile _
    _ = List.rdropWhile isPySpace (pyStripChars l) := by
        rw [pyStripChars_eq_rdropWhile l, dropWhile_rdropWhile_of_self hself]
    _ = pyStripChars l := by
        rw [pyStripChars_eq_rdropWhile l, List.rdropWhile_idempotent]

theorem pyStrip_idempotent (s : String) : pyStrip (pyStrip s) = pyStrip s := by
  simp [pyStrip, pyStripChars_idempotent]

/-! ## `shared/utils.py`: `url_to_id`

`url_to_id(url) = hashlib.sha256(url.strip().encode()).hexdigest()[:16]`.
`hashlib.sha256` is modelled by the FIPS 180-4 SHA-256 algorithm over a
byte list, with 32-bit words as `Nat` reduced modulo `2^32`;
`str.encode()` (UTF-8) is modelled by `utf8Encode`. -/

/-- UTF-8 encoding of one Unicode scalar value (`str.encode()` on one
character). -/
def utf8EncodeChar (c : Char) : List Nat :=
  let n := c.toNat
  if n < 0x80 then [n]
  else if n < 0x800 then
    [0xC0 ||| (n >>> 6), 0x80 ||| (n &&& 0x3F)]
  else if n < 0x10000 then
    [0xE0 ||| (n >>> 12), 0x80 ||| ((n >>> 6) &&& 0x3F), 0x80 ||| (n &&& 0x3F)]
  else
    [0xF0 ||| (n >>> 18), 0x80 ||| ((n >>> 12) &&& 0x3F),
     0x80 ||| ((n >>> 6) &&& 0x3F), 0x80 ||| (n &&& 0x3F)]

/-- `str.encode()`: UTF-8 bytes of a string. -/
def utf8Encode (s : String) : List Nat :=
  (s.data.map utf8EncodeChar).flatten

namespace SHA256

/-- Reduce to a 32-bit word. -/
def w32 (n : Nat) : Nat := n % 4294967296

/-- Right rotation of a 32-bit word. -/
def rotr (x n : Nat) : Nat := w32 ((x >>> n) ||| (x <<< (32 - n)))

def smallSigma0 (x : Nat) : Nat := (rotr x 7) ^^^ (rotr x 18) ^^^ (x >>> 3)

def smallSigma1 (x : Nat) : Nat := (rotr x 17) ^^^ (rotr x 19) ^^^ (x >>> 10)

def bigSigma0 (x : Nat) : Nat := (rotr x 2) ^^^ (rotr x 13) ^^^ (rotr x 22)

def bigSigma1 (x : Nat) : Nat := (rotr x 6) ^^^ (rotr x 11) ^^^ (rotr x 25)

def ch (x y z : Nat) : Nat := (x &&& y) ^^^ ((x ^^^ 0xFFFFFFFF) &&& z)

def maj (x y z : Nat) : Nat := (x &&& y) ^^^ (x &&& z) ^^^ (y &&& z)

/-- The 64 SHA-256 round constants (FIPS 180-4, in decimal). -/
def K : List Nat :=
  [1116352408, 1899447441, 3049323471, 3921009573, 961987163,
   1508970993, 2453635748, 2870763221, 3624381080, 310598401,
   607225278, 1426881987, 1925078388, 2162078206, 2614888103,
   3248222580, 3835390401, 4022224774, 264347078, 604807628,
   770255983, 1249150122, 1555081692, 1996064986, 2554220882,
   2821834349, 2952996808, 3210313671, 3336571891, 3584528711,
   113926993, 338241895, 666307205, 773529912, 1294757372,
   1396182291, 1695183700, 1986661051, 2177026350, 2456956037,
   2730485921, 2820302411, 3259730800, 3345764771, 3516065817,
   3600352804, 4094571909, 275423344, 430227734, 506948616,
   659060556, 883997877, 958139571, 1322822218, 1537002063,
   1747873779, 1955562222, 2024104815, 2227730452, 2361852424,
   2428436474, 2756734187, 3204031479, 3329325298]

/-- The initial hash value (FIPS 180-4, in decimal). -/
def H0 : List Nat :=
  [1779033703, 3144134277, 1013904242, 2773480762,
   1359893119, 2600822924, 528734635, 1541459225]

/-- Big-endian bytes (most significant first) of a value, `k` bytes. -/
def beBytes (k n : Nat) : List Nat :=
  (List.range k).map fun i => (n >>> (8 * (k - 1 - i))) % 256

/-- SHA-256 padding: append `0x80`, zero bytes up to 56 mod 64, and the
message bit length as 8 big-endian bytes. -/
def pad (msg : List Nat) : List Nat :=
  let zeros := (119 - msg.length % 64) % 64
  msg ++ [0x80] ++ List.replicate zeros 0 ++ beBytes 8 (8 * msg.length)

/-- Split a byte list into 64-byte blocks. -/
def toBlocks (l : List Nat) : List (List Nat) :=
  if l = [] then []
  else l.take 64 :: toBlocks (l.drop 64)
termination_by l.length
decreasing_by
  have : l.length ≠ 0 := by simpa [List.length_eq_zero] using ‹l ≠ []›
  simp [List.length_drop]
  omega

/-- The 16 big-endian 32-bit words of one 64-byte block. -/
def blockWords (block : List Nat) : List Nat :=
  (List.range 16).map fun i =>
    (block.getD (4 * i) 0) * 16777216 + (block.getD (4 * i + 1) 0) * 65536
      + (block.getD (4 * i + 2) 0) * 256 + block.getD (4 * i + 3) 0

/-- Extend the 16 message-schedule words to 64. -/
def schedule (ws : List Nat) : List Nat :=
  (List.range 48).foldl
    (fun acc _ =>
      let n := acc.length
      acc ++ [w32 (smallSigma1 (acc.getD (n - 2) 0) + acc.getD (n - 7) 0
        + smallSigma0 (acc.getD (n - 15) 0) + acc.getD (n - 16) 0)])
    ws

/-- One round of the compression function on the working variables
`[a, b, c, d, e, f, g, h]` with round word `w` and constant `k`. -/
def round (vars : List Nat) (kw : Nat × Nat) : List Nat :=
  match vars with
  | [a, b, c, d, e, f, g, h] =>
    let t1 := w32 (h + bigSigma1 e + ch e f g + kw.1 + kw.2)
    let t2 := w32 (bigSigma0 a + maj a b c)
    [w32 (t1 + t2), a, b, c, w32 (d + t1), e, f, g]
  | other => other

/-- Compress one 64-byte block into the running hash. -/
def compress (h : List Nat) (block : List Nat) : List Nat :=
  let ws := schedule (blockWords block)
  let vars := (K.zip ws).foldl (fun v kw => round v (kw.1, kw.2)) h
  (h.zip vars).map fun p => w32 (p.1 + p.2)

/-- SHA-256 digest of a byte list: the eight 32-bit hash words. -/
def sha256Words (msg : List Nat) : List Nat :=
  (toBlocks (pad msg)).foldl compress H0

/-- A hexadecimal digit character (lowercase, as `hexdigest` uses). -/
def hexChar (n : Nat) : Char :=
  if n < 10 then Char.ofNat (48 + n) else Char.ofNat (87 + n)

/-- The 8 lowercase hex characters of one 32-bit word. -/
def wordHex (x : Nat) : List Char :=
  (List.range 8).map fun i => hexChar ((x >>> (28 - 4 * i)) % 16)

/-- `hashlib.sha256(msg).hexdigest()`: 64 lowercase hex characters. -/
def hexdigest (msg : List Nat) : List Char :=
  ((sha256Words msg).map wordHex).flatten

end SHA256

/-- Model of `url_to_id(url)` in `shared/utils.py`:
`hashlib.sha256(url.strip().encode()).hexdigest()[:16]`. -/
def url_to_id (url : String) : String :=
  String.mk ((SHA256.hexdigest (utf8Encode (pyStrip url))).take 16)

/-! ## `agents/quality_guard_agent.py`: `check_character_limit` -/

/-- The dictionary returned by `check_character_limit` (the constant
`"status": "success"` entry is omitted; it carries no information). -/
structure CharLimitResult where
  char_count : Nat
  within_limit : Bool
  over_by : Int
deriving DecidableEq

/-- Model of `check_character_limit(draft_text)` in
`agents/quality_guard_agent.py`:
`count = len(draft_text)`; `within_limit = count <= 4000`;
`over_by = max(0, count - 4000)`.  (The source's comparison constant is
`4000`, even though its docstring speaks of the 280 character limit.) -/
def check_character_limit (draft_text : String) : CharLimitResult :=
  let count := draft_text.length
  { char_count := count
    within_limit := decide (count ≤ 4000)
    over_by := max 0 ((count : Int) - 4000) }

/-- What the spec (and the function's own docstring and unit tests)
describe.  Modelled from the spec: `within_limit iff count ≤ 280`,
`over_by = max(0, count − 280)`. -/
def check_character_limit_spec (draft_text : String) : CharLimitResult :=
  let count := draft_text.length
  { char_count := count
    within_limit := decide (count ≤ 280)
    over_by := max 0 ((count : Int) - 280) }

/-! ## `shared/utils.py`: `sanitize_for_prompt`

`html.unescape` is modelled for the character references that matter
here: the named references `amp`, `lt`, `gt`, `quot`, `apos` and the
numeric forms `&#N;` / `&#xH;`; any other ampersand sequence passes
through unchanged (as `html.unescape` leaves unknown references alone).
References written without a closing semicolon, the full HTML5 named
table, and the U+FFFD replacement of out-of-range code points are not
modelled; none occur in this development. -/

def decDigitsVal (l : List Char) : Option Nat :=
  if l ≠ [] ∧ l.all (fun c => c.isDigit) then
    some (l.foldl (fun a c => 10 * a + (c.toNat - 48)) 0)
  else none

def hexDigitVal (c : Char) : Nat :=
  if c.isDigit then c.toNat - 48
  else if 'a' ≤ c ∧ c ≤ 'f' then c.toNat - 87
  else c.toNat - 55

def hexDigitsVal (l : List Char) : Option Nat :=
  if l ≠ [] ∧ l.all (fun c => c.isDigit || ('a' ≤ c && c ≤ 'f') || ('A' ≤ c && c ≤ 'F')) then
    some (l.foldl (fun a c => 16 * a + hexDigitVal c) 0)
  else none

/-- The replacement characters for the body of one `&…;` reference, if it
is a recognized character reference. -/
def charRef (body : List Char) : Option (List Char) :=
  match body with
  | '#' :: 'x' :: h => (hexDigitsVal h).map fun n => [Char.ofNat n]
  | '#' :: 'X' :: h => (hexDigitsVal h).map fun n => [Char.ofNat n]
  | '#' :: ds => (decDigitsVal ds).map fun n => [Char.ofNat n]
  | _ =>
    if body = "amp".data then some ['&']
    else if body = "lt".data then some ['<']
    else if body = "gt".data then some ['>']
    else if body = "quot".data then some ['"']
    else if body = "apos".data then some ['\'']
    else none

/-- Fuel-driven scan for `html.unescape`; the fuel is the remaining
input length, and every step consumes at least one character. -/
def htmlUnescapeAux : Nat → List Char → List Char
  | 0, l => l
  | _ + 1, [] => []
  | fuel + 1, c :: rest =>
    if c = '&' then
      let body := rest.takeWhile (fun x => x ≠ ';')
      if body.length < rest.length then
        match charRef body with
        | some repl => repl ++ htmlUnescapeAux fuel (rest.drop (body.length + 1))
        | none => '&' :: htmlUnescapeAux fuel rest
      else '&' :: htmlUnescapeAux fuel rest
    else c :: htmlUnescapeAux fuel rest

/-- `html.unescape` on a character list. -/
def htmlUnescape (l : List Char) : List Char :=
  htmlUnescapeAux l.length l

/-- The character class removed by the sanitizer's regex
`[\x00-\x09\x0b-\x0c\x0e-\x1f\x7f]` (note: `\x0a` LF and `\x0d` CR are
not in the class). -/
def isStrippedControl (c : Char) : Bool :=
  c.toNat ≤ 0x09 || c.toNat = 0x0b || c.toNat = 0x0c
    || (0x0e ≤ c.toNat && c.toNat ≤ 0x1f) || c.toNat = 0x7f

/-- Model of `sanitize_for_prompt(text)` in `shared/utils.py`:
empty input maps to `""`; otherwise HTML-decode, remove the control
characters matched by the regex, truncate the result to 2000 characters
plus `"..."` when longer than 2000, and finally `strip()`. -/
def sanitize_for_prompt (text : String) : String :=
  if text = "" then ""
  else
    let t1 := htmlUnescape text.data
    let t2 := t1.filter (fun c => !isStrippedControl c)
    let t3 := if 2000 < t2.length then t2.take 2000 ++ "...".data else t2
    String.mk (pyStripChars t3)

theorem pyStripChars_sublist (l : List Char) : List.Sublist (pyStripChars l) l := by
  rw [pyStripChars_eq_rdropWhile]
  exact (List.rdropWhile_prefix _ _).sublist.trans (List.dropWhile_sublist _)

theorem htmlUnescapeAux_no_amp (fuel : Nat) :
    ∀ l : List Char, '&' ∉ l → htmlUnescapeAux fuel l = l := by
  induction fuel with
  | zero => intro l _; rfl
  | succ fuel ih =>
    intro l h
    cases l with
    | nil => rfl
    | cons c rest =>
      have hc : ¬ (c = '&') := fun e => h (by simp [e])
      have hr : '&' ∉ rest := fun m => h (List.mem_cons_of_mem c m)
      simp [htmlUnescapeAux, hc, ih rest hr]

theorem htmlUnescape_no_amp (l : List Char) (h : '&' ∉ l) : htmlUnescape l = l :=
  htmlUnescapeAux_no_amp l.length l h

/-- No character of a sanitized string is in the stripped control class. -/
theorem sanitize_no_control (text : String) (c : Char)
    (hc : c ∈ (sanitize_for_prompt text).data) : isStrippedControl c = false := by
  by_cases hts : text = ""
  · rw [hts] at hc; simp [sanitize_for_prompt] at hc
  · simp only [sanitize_for_prompt, if_neg hts] at hc
    have hc3 := (pyStripChars_sublist _).subset hc
    set t2 := (htmlUnescape text.data).filter (fun c => !isStrippedControl c) with ht2
    by_cases htr : 2000 < t2.length
    · rw [if_pos htr] at hc3
      rcases List.mem_append.mp hc3 with h2 | hdots
      · have := List.of_mem_filter ((List.take_sublist _ _).subset h2)
        simpa using this
      · simp at hdots
        rw [hdots]; decide
    · rw [if_neg htr] at hc3
      have := List.of_mem_filter hc3
      simpa using this

/-- The sanitized string never exceeds 2003 characters
(2000 plus the ellipsis marker). -/
theorem sanitize_length_le (text : String) :
    (sanitize_for_prompt text).length ≤ 2003 := by
  by_cases hts : text = ""
  · simp [hts, sanitize_for_prompt]
  · simp only [sanitize_for_prompt, if_neg hts]
    have hstrip : ∀ l : List Char, (pyStripChars l).length ≤ l.length :=
      fun l => (pyStripChars_sublist l).length_le
    set t2 := (htmlUnescape text.data).filter (fun c => !isStrippedControl c) with ht2
    by_cases htr : 2000 < t2.length
    · rw [if_pos htr]
      have h1 := hstrip (t2.take 2000 ++ "...".data)
      have h2 : (t2.take 2000 ++ "...".data).length ≤ 2003 := by
        simp [List.length_append, List.length_take]
      calc (String.mk (pyStripChars (t2.take 2000 ++ "...".data))).length
          = (pyStripChars (t2.take 2000 ++ "...".data)).length := rfl
        _ ≤ 2003 := le_trans h1 h2
    · rw [if_neg htr]
      have h1 := hstrip t2
      calc (String.mk (pyStripChars t2)).length = (pyStripChars t2).length := rfl
        _ ≤ t2.length := h1
        _ ≤ 2003 := by omega

/-- The sanitized string carries no surrounding whitespace. -/
theorem sanitize_stripped (text : String) :
    pyStripChars (sanitize_for_prompt text).data = (sanitize_for_prompt text).data := by
  by_cases hts : text = ""
  · simp [hts, sanitize_for_prompt]; rfl
  · simp only [sanitize_for_prompt, if_neg hts]
    exact pyStripChars_idempotent _

/-- On already-clean input (no ampersand, no stripped control character,
at most 2000 characters, already trimmed) the sanitizer is the identity,
hence idempotent there. -/
theorem sanitize_clean_id (text : String) (h1 : '&' ∉ text.data)
    (h2 : ∀ c ∈ text.data, isStrippedControl c = false)
    (h3 : text.length ≤ 2000)
    (h4 : pyStripChars text.data = text.data) :
    sanitize_for_prompt text = text := by
  by_cases hts : text = ""
  · rw [hts]; rfl
  · simp only [sanitize_for_prompt, if_neg hts]
    have e1 : htmlUnescape text.data = text.data := htmlUnescape_no_amp _ h1
    have e2 : (htmlUnescape text.data).filter (fun c => !isStrippedControl c)
        = text.data := by
      rw [e1]
      exact List.filter_eq_self.mpr fun a ha => by simp [h2 a ha]
    rw [e2]
    have hlen : ¬ 2000 < text.data.length := by
      have : text.length = text.data.length := rfl
      omega
    rw [if_neg hlen, h4]

/-- Concrete input for claim C7: 250 copies of `&amp;`, then `a\rb`,
then 250 more copies — 2503 characters that decode to 503. -/
def C7bigInput : String :=
  String.mk ((List.replicate 250 "&amp;".data).flatten ++ "a\rb".data
    ++ (List.replicate 250 "&amp;".data).flatten)

/-- The character list `C7bigInput` decodes to. -/
def C7decoded : List Char :=
  List.replicate 250 '&' ++ ('a' :: '\r' :: 'b' :: List.replicate 250 '&')

theorem htmlUnescapeAux_nil (fuel : Nat) : htmlUnescapeAux fuel [] = [] := by
  cases fuel <;> rfl

theorem aux_char_step (fuel : Nat) (c : Char) (rest : List Char) (hc : ¬ c = '&') :
    htmlUnescapeAux (fuel + 1) (c :: rest) = c :: htmlUnescapeAux fuel rest := by
  simp [htmlUnescapeAux, hc]

theorem takeWhile_amp (rest : List Char) :
    List.takeWhile (fun x => x ≠ ';') ('a' :: 'm' :: 'p' :: ';' :: rest)
      = ['a', 'm', 'p'] := rfl

theorem aux_amp_step (fuel : Nat) (rest : List Char) :
    htmlUnescapeAux (fuel + 1) ("&amp;".data ++ rest)
      = '&' :: htmlUnescapeAux fuel rest := by
  have e : "&amp;".data ++ rest = '&' :: ('a' :: 'm' :: 'p' :: ';' :: rest) := rfl
  rw [e]
  simp only [htmlUnescapeAux, if_pos rfl, takeWhile_amp]
  have hlt : ([ 'a', 'm', 'p'] : List Char).length
      < ('a' :: 'm' :: 'p' :: ';' :: rest).length := by simp
  rw [if_pos hlt]
  rfl

theorem aux_amp_chain (rest : List Char) :
    ∀ n fuel : Nat,
      htmlUnescapeAux (fuel + n) ((List.replicate n "&amp;".data).flatten ++ rest)
        = List.replicate n '&' ++ htmlUnescapeAux fuel rest := by
  intro n
  induction n with
  | zero => intro fuel; simp
  | succ n ih =>
    intro fuel
    have e : (List.replicate (n + 1) "&amp;".data).flatten ++ rest
        = "&amp;".data ++ ((List.replicate n "&amp;".data).flatten ++ rest) := by
      simp [List.replicate_succ]
    have harr : fuel + (n + 1) = (fuel + n) + 1 := by omega
    rw [e, harr, aux_amp_step, ih, List.replicate_succ]
    rfl

theorem C7big_data :
    C7bigInput.data = (List.replicate 250 "&amp;".data).flatten
      ++ ("a\rb".data ++ (List.replicate 250 "&amp;".data).flatten) := by
  show (List.replicate 250 "&amp;".data).flatten ++ "a\rb".data
      ++ (List.replicate 250 "&amp;".data).flatten = _
  rw [List.append_assoc]

theorem C7big_len : C7bigInput.length = 2503 := by
  show C7bigInput.data.length = 2503
  rw [C7big_data]
  simp [List.length_flatten, List.map_replicate, List.sum_replicate, smul_eq_mul]

theorem C7big_unescape : htmlUnescape C7bigInput.data = C7decoded := by
  have hlen : C7bigInput.data.length = 2503 := C7big_len
  rw [htmlUnescape, hlen, C7big_data]
  have h1 : (2503 : Nat) = 2253 + 250 := by norm_num
  rw [h1, aux_amp_chain]
  have e : "a\rb".data ++ (List.replicate 250 "&amp;".data).flatten
      = 'a' :: '\r' :: 'b' :: (List.replicate 250 "&amp;".data).flatten := rfl
  rw [e]
  have h2 : (2253 : Nat) = 2252 + 1 := by norm_num
  rw [h2, aux_char_step _ _ _ (by decide)]
  have h3 : (2252 : Nat) = 2251 + 1 := by norm_num
  rw [h3, aux_char_step _ _ _ (by decide)]
  have h4 : (2251 : Nat) = 2250 + 1 := by norm_num
  rw [h4, aux_char_step _ _ _ (by decide)]
  rw [← List.append_nil ((List.replicate 250 "&amp;".data).flatten)]
  have h5 : (2250 : Nat) = 2000 + 250 := by norm_num
  rw [h5, aux_amp_chain, htmlUnescapeAux_nil, List.append_nil, C7decoded]

theorem C7big_sanitize : sanitize_for_prompt C7bigInput = String.mk C7decoded := by
  have hne : ¬ C7bigInput = "" := by
    intro h
    have h2 := congrArg String.length h
    rw [C7big_len] at h2
    exact absurd h2 (by decide)
  simp only [sanitize_for_prompt, if_neg hne]
  rw [C7big_unescape]
  have hfilter : C7decoded.filter (fun c => !isStrippedControl c) = C7decoded := by
    apply List.filter_eq_self.mpr
    intro a ha
    simp only [C7decoded, List.mem_append, List.mem_cons, List.mem_replicate] at ha
    rcases ha with ⟨-, rfl⟩ | rfl | rfl | rfl | ⟨-, rfl⟩ <;> decide
  rw [hfilter]
  have hlen2 : C7decoded.length = 503 := by
    simp [C7decoded]
  have hnotrunc : ¬ 2000 < C7decoded.length := by rw [hlen2]; omega
  rw [if_neg hnotrunc]
  have hdrop : C7decoded.dropWhile isPySpace = C7decoded := by
    have e : C7decoded
        = '&' :: (List.replicate 249 '&'
            ++ ('a' :: '\r' :: 'b' :: List.replicate 250 '&')) := by
      rw [C7decoded]
      rw [show (250 : Nat) = 249 + 1 from by norm_num, List.replicate_succ]
      rfl
    rw [e]
    exact dropWhile_cons_self_of_head (by decide)
  have hconcat : C7decoded
      = (List.replicate 250 '&'
          ++ ('a' :: '\r' :: 'b' :: List.replicate 249 '&')) ++ ['&'] := by
    rw [C7decoded]
    conv_lhs => rw [show (250 : Nat) = 249 + 1 from by norm_num]
    rw [List.replicate_succ' 249 '&']
    simp
  have hamp : ¬ isPySpace '&' = true := by decide
  have hrdrop : List.rdropWhile isPySpace C7decoded = C7decoded := by
    conv_lhs => rw [hconcat]
    conv_rhs => rw [hconcat]
    exact List.rdropWhile_concat_neg isPySpace
      (List.replicate 250 '&' ++ ('a' :: '\r' :: 'b' :: List.replicate 249 '&')) '&' hamp
  rw [pyStripChars_eq_rdropWhile, hdrop, hrdrop]

/-! ## `agents/collector_agent.py`: `_request_with_retry`

The network is modelled as a stream `events : Nat → NetEvent` giving the
outcome of the `client.request` call made on each attempt:
`netErr` stands for `httpx.TimeoutException` / `httpx.ConnectError`, and
`resp code retryAfter` for a response with the given status code and the
parsed `Retry-After` header if present.  `raise_for_status` raises
`httpx.HTTPStatusError` for any non-2xx response; `genericFailure` is
the final `raise last_exc or httpx.HTTPError(...)` with no stored
exception.  The result pairs the outcome with the list of `time.sleep`
durations performed (in seconds). -/

inductive NetEvent where
  | netErr
  | resp (code : Nat) (retryAfter : Option Nat)
deriving DecidableEq

inductive ReqError where
  | statusErr (code : Nat)
  | netExc
  | genericFailure
deriving DecidableEq

inductive ReqOutcome where
  | ok (code : Nat)
  | raised (e : ReqError)
deriving DecidableEq

def MAX_RETRIES : Nat := 3

def RETRY_BACKOFF_BASE : Nat := 2

/-- The `for attempt in range(MAX_RETRIES)` loop of `_request_with_retry`,
with `fuel` the number of remaining iterations. -/
def retryLoop (events : Nat → NetEvent) :
    Nat → Nat → Option ReqError → ReqOutcome × List Nat
  | 0, _, lastExc =>
    (ReqOutcome.raised (lastExc.getD ReqError.genericFailure), [])
  | fuel + 1, attempt, lastExc =>
    match events attempt with
    | NetEvent.netErr =>
      let w := RETRY_BACKOFF_BASE ^ (attempt + 1)
      let r := retryLoop events fuel (attempt + 1) (some ReqError.netExc)
      (r.1, w :: r.2)
    | NetEvent.resp code ra =>
      if code = 429 then
        let w := ra.getD (RETRY_BACKOFF_BASE ^ (attempt + 1))
        let r := retryLoop events fuel (attempt + 1) lastExc
        (r.1, w :: r.2)
      else if 200 ≤ code ∧ code < 300 then (ReqOutcome.ok code, [])
      else if 500 ≤ code then
        let w := RETRY_BACKOFF_BASE ^ (attempt + 1)
        let r := retryLoop events fuel (attempt + 1) (some (ReqError.statusErr code))
        (r.1, w :: r.2)
      else (ReqOutcome.raised (ReqError.statusErr code), [])

/-- Model of `_request_with_retry` in `agents/collector_agent.py`. -/
def request_with_retry (events : Nat → NetEvent) : ReqOutcome × List Nat :=
  retryLoop events MAX_RETRIES 0 none

/-- The events on which the loop sleeps and tries again. -/
def retryable : NetEvent → Bool
  | NetEvent.netErr => true
  | NetEvent.resp code _ => decide (code = 429) || decide (500 ≤ code)

/-- The sleep performed for a retryable event on attempt `a` (0-indexed):
the `Retry-After` duration for a 429 carrying the header, else
`RETRY_BACKOFF_BASE ^ (a + 1)`. -/
def sleepOf : NetEvent → Nat → Nat
  | NetEvent.netErr, a => RETRY_BACKOFF_BASE ^ (a + 1)
  | NetEvent.resp code ra, a =>
    if code = 429 then ra.getD (RETRY_BACKOFF_BASE ^ (a + 1))
    else RETRY_BACKOFF_BASE ^ (a + 1)

theorem retryLoop_step (events : Nat → NetEvent) (fuel attempt : Nat)
    (lastExc : Option ReqError) (h : retryable (events attempt) = true) :
    ∃ le' : Option ReqError,
      retryLoop events (fuel + 1) attempt lastExc
        = ((retryLoop events fuel (attempt + 1) le').1,
           sleepOf (events attempt) attempt
             :: (retryLoop events fuel (attempt + 1) le').2) := by
  cases he : events attempt with
  | netErr =>
    refine ⟨some ReqError.netExc, ?_⟩
    rw [retryLoop, he, sleepOf]
  | resp code ra =>
    rw [he, retryable] at h
    simp only [Bool.or_eq_true, decide_eq_true_eq] at h
    by_cases h429 : code = 429
    · refine ⟨lastExc, ?_⟩
      rw [retryLoop, he]
      dsimp only
      rw [if_pos h429, sleepOf, if_pos h429]
    · have h500 : 500 ≤ code := by tauto
      refine ⟨some (ReqError.statusErr code), ?_⟩
      have h23 : ¬ (200 ≤ code ∧ code < 300) := by omega
      rw [retryLoop, he]
      dsimp only
      rw [if_neg h429, if_neg h23, if_pos h500, sleepOf, if_neg h429]

theorem retryLoop_client_error (events : Nat → NetEvent) (fuel attempt : Nat)
    (lastExc : Option ReqError) (code : Nat) (ra : Option Nat)
    (he : events attempt = NetEvent.resp code ra)
    (h4 : 400 ≤ code) (h5 : code < 500) (h429 : code ≠ 429) :
    retryLoop events (fuel + 1) attempt lastExc
      = (ReqOutcome.raised (ReqError.statusErr code), []) := by
  have h23 : ¬ (200 ≤ code ∧ code < 300) := by omega
  have h500 : ¬ 500 ≤ code := by omega
  rw [retryLoop, he]
  dsimp only
  rw [if_neg h429, if_neg h23, if_neg h500]

theorem retryLoop_success (events : Nat → NetEvent) (fuel attempt : Nat)
    (lastExc : Option ReqError) (code : Nat) (ra : Option Nat)
    (he : events attempt = NetEvent.resp code ra)
    (h2 : 200 ≤ code) (h3 : code < 300) :
    retryLoop events (fuel + 1) attempt lastExc = (ReqOutcome.ok code, []) := by
  have h429 : ¬ code = 429 := by omega
  rw [retryLoop, he]
  dsimp only
  rw [if_neg h429, if_pos (And.intro h2 h3)]

/-- Skipping a run of `k` retryable attempts: the loop sleeps once per
attempt and continues from attempt `attempt + k` with some stored
exception. -/
theorem retryLoop_skip (events : Nat → NetEvent) :
    ∀ (k fuel attempt : Nat) (lastExc : Option ReqError), k ≤ fuel →
      (∀ i, attempt ≤ i → i < attempt + k → retryable (events i) = true) →
      ∃ le' : Option ReqError,
        retryLoop events fuel attempt lastExc
          = ((retryLoop events (fuel - k) (attempt + k) le').1,
             (List.range' attempt k).map (fun i => sleepOf (events i) i)
               ++ (retryLoop events (fuel - k) (attempt + k) le').2) := by
  intro k
  induction k with
  | zero =>
    intro fuel attempt lastExc _ _
    exact ⟨lastExc, by simp⟩
  | succ k ih =>
    intro fuel attempt lastExc hk hall
    obtain ⟨fuel', rfl⟩ : ∃ m, fuel = m + 1 := ⟨fuel - 1, by omega⟩
    obtain ⟨le₁, h1⟩ := retryLoop_step events fuel' attempt lastExc
      (hall attempt (le_refl _) (by omega))
    obtain ⟨le₂, h2⟩ := ih fuel' (attempt + 1) le₁ (by omega)
      (fun i hi1 hi2 => hall i (by omega) (by omega))
    refine ⟨le₂, ?_⟩
    have harith1 : fuel' + 1 - (k + 1) = fuel' - k := by omega
    have harith2 : attempt + (k + 1) = attempt + 1 + k := by omega
    rw [h1, h2, harith1, harith2, List.range'_succ, List.map_cons]
    rfl

/-! ## `shared/models.py`: `DraftPost` -/

inductive DraftStatus where
  | pending
  | approved
  | rejected
deriving DecidableEq

/-- Model of `DraftPost.model_post_init`: when no `draft_id` was supplied
(the empty string, the field's default), derive it as the `item_id` with
`'/'` replaced by `'_'` (`item_id.replace("/", "_")`), followed by `"_v"`
and the variant number. -/
def derive_draft_id (draft_id item_id : String) (variant : Nat) : String :=
  if draft_id = "" then
    String.mk (item_id.data.map fun c => if c = '/' then '_' else c)
      ++ "_v" ++ toString variant
  else draft_id

/-- Model of the `DraftPost.content_length_check` field validator: it
only logs a warning when `len(v) > 280` and returns the value unchanged,
so it never rejects. -/
def content_length_check (v : String) : Except String String :=
  Except.ok v

/-- The fields of a `DraftPost` that the pipeline claims are about. -/
structure DraftPost where
  draft_id : String
  item_id : String
  variant : Nat
  content : String
  status : DraftStatus
  quality_score : Int
deriving DecidableEq

/-- Model of constructing
`DraftPost(item_id=…, variant=…, content=…, status=DraftStatus.PENDING)`
as `pipeline._persist_results` does: pydantic runs the field validators
(`variant` must lie in `1..2` by its `Field(ge=1, le=2)` bound;
`content_length_check` runs on the content) and then
`model_post_init` derives the `draft_id`. -/
def mkDraftPost (item_id : String) (variant : Nat) (content : String) :
    Except String DraftPost :=
  if variant < 1 ∨ 2 < variant then Except.error "variant out of range"
  else
    match content_length_check content with
    | Except.error e => Except.error e
    | Except.ok c =>
        Except.ok
          { draft_id := derive_draft_id "" item_id variant
            item_id := item_id
            variant := variant
            content := c
            status := DraftStatus.pending
            quality_score := 0 }

/-- One entry of the `generated_drafts` payload as read by
`pipeline._persist_results` (after `.get` defaulting:
`item_id` defaults to `"unknown"`, `variant` to `1`). -/
structure DraftData where
  item_id : String
  variant : Nat
  content : String
deriving DecidableEq

/-- Model of one iteration of the draft-persistence loop in
`pipeline._persist_results`: a dict with truthy (non-empty) `content`
is turned into a pending `DraftPost` and saved; a construction error is
caught and the draft skipped. -/
def persistDraftStep (dd : DraftData) : Option DraftPost :=
  if dd.content = "" then none
  else (mkDraftPost dd.item_id dd.variant dd.content).toOption

/-! ## `pipeline.py`: applying quality results in `_persist_results`

`all_draft_ids` is the list of identities of the currently
pending-persisted drafts, in persisted list order; a quality result
carries the `draft_id` the quality guard reported (after `str(...)`
coercion, with `""` default) and its `passed` flag.  The Firestore
update itself (and its caught failure) does not affect the pass count,
which is modelled directly. -/

structure QualityResultData where
  draft_id : String
  passed : Bool
deriving DecidableEq

/-- The resolution step of `_persist_results`: exact identity match
against the pending ids first, then positional fallback (`idx`-th
pending id), else unresolved. -/
def resolveDraftId (all_draft_ids : List String) (idx : Nat) (draft_id : String) :
    Option String :=
  if draft_id ∈ all_draft_ids then some draft_id
  else if idx < all_draft_ids.length then some (all_draft_ids.getD idx "")
  else none

/-- The `for idx, qr_data in enumerate(quality_results)` loop: collect
the updates applied (resolved id with its result, in order) and the
`drafts_passed_quality` count. -/
def applyQualityAux (all_draft_ids : List String) :
    Nat → List QualityResultData → List (String × QualityResultData) × Nat
  | _, [] => ([], 0)
  | idx, qr :: rest =>
    let r := applyQualityAux all_draft_ids (idx + 1) rest
    match resolveDraftId all_draft_ids idx qr.draft_id with
    | some rid => ((rid, qr) :: r.1, (if qr.passed then 1 else 0) + r.2)
    | none => r

def applyQualityResults (quality_results : List QualityResultData)
    (all_draft_ids : List String) : List (String × QualityResultData) × Nat :=
  applyQualityAux all_draft_ids 0 quality_results

theorem applyQualityAux_spec (ids : List String) :
    ∀ (qrs : List QualityResultData) (idx : Nat),
      applyQualityAux ids idx qrs
        = ((qrs.enumFrom idx).filterMap
              (fun iqr => (resolveDraftId ids iqr.1 iqr.2.draft_id).map
                fun rid => (rid, iqr.2)),
           (qrs.enumFrom idx).countP
              (fun iqr =>
                (resolveDraftId ids iqr.1 iqr.2.draft_id).isSome && iqr.2.passed)) := by
  intro qrs
  induction qrs with
  | nil => intro idx; rfl
  | cons qr rest ih =>
    intro idx
    rw [applyQualityAux, ih (idx + 1), List.enumFrom_cons, List.filterMap_cons,
      List.countP_cons]
    cases hres : resolveDraftId ids idx qr.draft_id with
    | none =>
      simp [hres]
    | some rid =>
      simp [hres]
      cases hp : qr.passed <;> (simp [hp]; try omega)

/-! ## `pipeline.py`: `_parse_json_from_state`

`json.loads` is modelled by a recursive-descent parser of the JSON
grammar in strict mode (leftover non-whitespace input, raw control
characters inside strings, leading zeros, `1.` and bare `-` are
rejected, like `json.JSONDecodeError`); a JSON number is kept in the
structural form sign·intPart, fraction digits, exponent rather than as a
float; an object is an ordered field list (Python's dict keeps the last
duplicate; duplicates do not occur in this development); the `NaN` /
`Infinity` extensions of `json.loads` are not modelled.  The value read
from session state is a list (used as-is), a string (decoded by span
extraction), or anything else (yielding `[]`). -/

inductive JVal where
  | null
  | bool (b : Bool)
  | num (intPart : Int) (frac : List Nat) (exp : Int)
  | str (s : String)
  | arr (items : List JVal)
  | obj (fields : List (String × JVal))

def isJsonWs (c : Char) : Bool :=
  c = ' ' || c = '\t' || c = '\n' || c = '\r'

def skipWs (l : List Char) : List Char :=
  l.dropWhile isJsonWs

def hexVal? (c : Char) : Option Nat :=
  if '0' ≤ c ∧ c ≤ '9' then some (c.toNat - 48)
  else if 'a' ≤ c ∧ c ≤ 'f' then some (c.toNat - 87)
  else if 'A' ≤ c ∧ c ≤ 'F' then some (c.toNat - 55)
  else none

/-- Scan a JSON string body (after the opening quote), decoding escape
sequences, until the closing quote; `acc` holds the decoded characters
in reverse. -/
def parseJStringAux : List Char → List Char → Option (List Char × List Char)
  | _, [] => none
  | acc, c :: rest =>
    if c = '"' then some (acc.reverse, rest)
    else if c = '\\' then
      match rest with
      | [] => none
      | e :: rest2 =>
        if e = '"' then parseJStringAux ('"' :: acc) rest2
        else if e = '\\' then parseJStringAux ('\\' :: acc) rest2
        else if e = '/' then parseJStringAux ('/' :: acc) rest2
        else if e = 'b' then parseJStringAux ('\x08' :: acc) rest2
        else if e = 'f' then parseJStringAux ('\x0c' :: acc) rest2
        else if e = 'n' then parseJStringAux ('\n' :: acc) rest2
        else if e = 'r' then parseJStringAux ('\x0d' :: acc) rest2
        else if e = 't' then parseJStringAux ('\t' :: acc) rest2
        else if e = 'u' then
          match rest2 with
          | h1 :: h2 :: h3 :: h4 :: rest3 =>
            match hexVal? h1, hexVal? h2, hexVal? h3, hexVal? h4 with
            | some a, some b, some c2, some d =>
              parseJStringAux
                (Char.ofNat (((a * 16 + b) * 16 + c2) * 16 + d) :: acc) rest3
            | _, _, _, _ => none
          | _ => none
        else none
    else if c.toNat < 32 then none
    else parseJStringAux (c :: acc) rest

def digitsToNat (l : List Char) : Nat :=
  l.foldl (fun a c => 10 * a + (c.toNat - 48)) 0

/-- The integer part of a JSON number: one or more digits, no leading
zero unless the part is exactly `0`. -/
def parseIntDigits (l : List Char) : Option (Nat × List Char) :=
  let ds := l.takeWhile (fun c => c.isDigit)
  if ds = [] then none
  else if 1 < ds.length ∧ ds.headD '0' = '0' then none
  else some (digitsToNat ds, l.drop ds.length)

/-- The optional fraction: `.` followed by one or more digits. -/
def parseFrac : List Char → Option (List Nat × List Char)
  | '.' :: r =>
    let ds := r.takeWhile (fun c => c.isDigit)
    if ds = [] then none
    else some (ds.map (fun c => c.toNat - 48), r.drop ds.length)
  | l => some ([], l)

/-- The optional exponent: `e`/`E`, optional sign, one or more digits. -/
def parseExp : List Char → Option (Int × List Char)
  | [] => some (0, [])
  | c :: r =>
    if c = 'e' ∨ c = 'E' then
      let sr : Bool × List Char :=
        match r with
        | '+' :: r2 => (false, r2)
        | '-' :: r2 => (true, r2)
        | _ => (false, r)
      let ds := sr.2.takeWhile (fun c => c.isDigit)
      if ds = [] then none
      else
        some ((if sr.1 then -(digitsToNat ds : Int) else (digitsToNat ds : Int)),
          sr.2.drop ds.length)
    else some (0, c :: r)

def parseNumBody (neg : Bool) (l : List Char) : Option (JVal × List Char) :=
  match parseIntDigits l with
  | none => none
  | some (ip, l2) =>
    match parseFrac l2 with
    | none => none
    | some (fr, l3) =>
      match parseExp l3 with
      | none => none
      | some (ex, l4) =>
        some (JVal.num (if neg then -(ip : Int) else (ip : Int)) fr ex, l4)

def parseNumber : List Char → Option (JVal × List Char)
  | '-' :: rest => parseNumBody true rest
  | l => parseNumBody false l

/-- Strip a literal keyword tail (`rue`, `alse`, `ull`). -/
def stripLit : List Char → List Char → Option (List Char)
  | [], l => some l
  | _, [] => none
  | a :: ls, b :: bs => if a = b then stripLit ls bs else none

mutual

/-- Parse one JSON value; the fuel bounds the recursion and is generous
(`2 * length + 2` at the top level always suffices). -/
def parseVal : Nat → List Char → Option (JVal × List Char)
  | 0, _ => none
  | fuel + 1, l0 =>
    match skipWs l0 with
    | [] => none
    | c :: rest =>
      if c = '"' then
        (parseJStringAux [] rest).map fun p => (JVal.str (String.mk p.1), p.2)
      else if c = '[' then
        match skipWs rest with
        | ']' :: r2 => some (JVal.arr [], r2)
        | _ => (parseElems fuel rest).map fun p => (JVal.arr p.1, p.2)
      else if c = '{' then
        match skipWs rest with
        | '}' :: r2 => some (JVal.obj [], r2)
        | _ => (parseMembers fuel rest).map fun p => (JVal.obj p.1, p.2)
      else if c = 't' then (stripLit "rue".data rest).map fun r => (JVal.bool true, r)
      else if c = 'f' then (stripLit "alse".data rest).map fun r => (JVal.bool false, r)
      else if c = 'n' then (stripLit "ull".data rest).map fun r => (JVal.null, r)
      else parseNumber (c :: rest)

/-- Parse the elements of a non-empty array (after the `[`). -/
def parseElems : Nat → List Char → Option (List JVal × List Char)
  | 0, _ => none
  | fuel + 1, l =>
    match parseVal fuel l with
    | none => none
    | some (v, r) =>
      match skipWs r with
      | ',' :: r2 => (parseElems fuel r2).map fun p => (v :: p.1, p.2)
      | ']' :: r2 => some ([v], r2)
      | _ => none

/-- Parse the members of a non-empty object (after the `{`). -/
def parseMembers : Nat → List Char → Option (List (String × JVal) × List Char)
  | 0, _ => none
  | fuel + 1, l =>
    match skipWs l with
    | '"' :: r =>
      match parseJStringAux [] r with
      | none => none
      | some (k, r2) =>
        match skipWs r2 with
        | ':' :: r3 =>
          match parseVal fuel r3 with
          | none => none
          | some (v, r4) =>
            match skipWs r4 with
            | ',' :: r5 =>
              (parseMembers fuel r5).map fun p => ((String.mk k, v) :: p.1, p.2)
            | '}' :: r5 => some ([(String.mk k, v)], r5)
            | _ => none
        | _ => none
    | _ => none

end

/-- `json.loads(s)`: parse one value and require only whitespace after
it (else `Extra data`, a `JSONDecodeError`). -/
def json_loads (s : String) : Option JVal :=
  match parseVal (2 * s.length + 2) s.data with
  | none => none
  | some (v, rest) => if skipWs rest = [] then some v else none

/-- A session-state value as `_parse_json_from_state` receives it. -/
inductive StateVal where
  | list (l : List JVal)
  | str (s : String)
  | other

/-- `str.find(c)` as an `Option` (`none` for `-1`). -/
def strFindIdx (c : Char) (l : List Char) : Option Nat :=
  l.findIdx? (fun x => x = c)

/-- `str.rfind(c)` as an `Option` (`none` for `-1`). -/
def strRFindIdx (c : Char) (l : List Char) : Option Nat :=
  match strFindIdx c l.reverse with
  | none => none
  | some i => some (l.length - 1 - i)

/-- `value[start : stop]`. -/
def pySlice (l : List Char) (start stop : Nat) : List Char :=
  (l.take stop).drop start

/-- Model of `ContentPipeline._parse_json_from_state`: a list is used
as-is; a string is stripped, then the span from the first `[` to the
last `]` is parsed as a JSON array, falling back to the span from the
first `{` to the last `}` parsed as one object and wrapped in a
one-element list (the code's own `isinstance(obj, dict)` check maps a
non-dict success to `[]`); every other case yields `[]`.  A successful
parse of the `[`-span is necessarily an array, since the span starts at
a `[`; the non-array success branch of the array attempt is therefore
unreachable and conservatively mapped to the fallback. -/
def parse_json_from_state (value : StateVal) : List JVal :=
  match value with
  | StateVal.list l => l
  | StateVal.other => []
  | StateVal.str s =>
    let v := pyStripChars s.data
    let arrAttempt : Option (List JVal) :=
      match strFindIdx '[' v, strRFindIdx ']' v with
      | some st, some en =>
        match json_loads (String.mk (pySlice v st (en + 1))) with
        | some (JVal.arr items) => some items
        | _ => none
      | _, _ => none
    match arrAttempt with
    | some items => items
    | none =>
      match strFindIdx '{' v, strRFindIdx '}' v with
      | some st, some en =>
        match json_loads (String.mk (pySlice v st (en + 1))) with
        | some (JVal.obj fields) => [JVal.obj fields]
        | some _ => []
        | none => []
      | _, _ => []

/-! ## `agents/ranker_agent.py`: `shortlist_top_items`

A scored item is modelled by its `relevance_score` and an opaque
`payload` identifying the rest of the dict (and its arrival position).
The JSON-decoding preamble of the tool (already-decoded lists are the
claim's subject) is not repeated here; the scores are `Int` (the repo
works with 0–100 scores).  Python's `list.sort(key=…, reverse=True)` is
stable and descending; `pySortDesc` realizes exactly that semantics as
an insertion sort that places each later element after earlier elements
of equal score. -/

structure RankedItem where
  relevance_score : Int
  payload : Nat
deriving DecidableEq

/-- The filter `item.get("relevance_score", 0) >= 60`. -/
def qualifies (x : RankedItem) : Bool :=
  decide (60 ≤ x.relevance_score)

/-- Insert `x` after all elements of score `≥ x`'s in a descending-sorted
list (stable insertion). -/
def insertDesc (x : RankedItem) : List RankedItem → List RankedItem
  | [] => [x]
  | y :: ys =>
    if x.relevance_score ≤ y.relevance_score then y :: insertDesc x ys
    else x :: y :: ys

/-- `qualified.sort(key=lambda x: x.get("relevance_score", 0),
reverse=True)`: stable descending sort. -/
def pySortDesc (l : List RankedItem) : List RankedItem :=
  l.foldl (fun acc x => insertDesc x acc) []

/-- Model of `shortlist_top_items` in `agents/ranker_agent.py`:
filter to score ≥ 60, sort descending (stable), truncate to
`max_items`. -/
def shortlist_top_items (items : List RankedItem) (max_items : Nat) : List RankedItem :=
  (pySortDesc (items.filter qualifies)).take max_items

/-- The descending-order relation used by the sort. -/
def DescOrd (a b : RankedItem) : Prop :=
  b.relevance_score ≤ a.relevance_score

theorem mem_insertDesc {z x : RankedItem} :
    ∀ {l : List RankedItem}, z ∈ insertDesc x l ↔ z = x ∨ z ∈ l := by
  intro l
  induction l with
  | nil => simp [insertDesc]
  | cons y ys ih =>
    by_cases hxy : x.relevance_score ≤ y.relevance_score
    · rw [insertDesc, if_pos hxy]
      simp only [List.mem_cons, ih]
      try tauto
    · rw [insertDesc, if_neg hxy]
      simp only [List.mem_cons]
      try tauto

theorem insertDesc_sorted {x : RankedItem} {l : List RankedItem}
    (h : List.Pairwise DescOrd l) : List.Pairwise DescOrd (insertDesc x l) := by
  induction l with
  | nil => simp [insertDesc]
  | cons y ys ih =>
    rcases List.pairwise_cons.mp h with ⟨hy, hys⟩
    by_cases hxy : x.relevance_score ≤ y.relevance_score
    · rw [insertDesc, if_pos hxy]
      refine List.pairwise_cons.mpr ⟨?_, ih hys⟩
      intro z hz
      rcases mem_insertDesc.mp hz with rfl | hz'
      · exact hxy
      · exact hy z hz'
    · rw [insertDesc, if_neg hxy]
      refine List.pairwise_cons.mpr ⟨?_, h⟩
      intro z hz
      rcases List.mem_cons.mp hz with rfl | hz'
      · exact le_of_lt (not_le.mp hxy)
      · exact le_trans (hy z hz') (le_of_lt (not_le.mp hxy))

theorem insertDesc_perm (x : RankedItem) (l : List RankedItem) :
    List.Perm (insertDesc x l) (x :: l) := by
  induction l with
  | nil => exact List.Perm.refl _
  | cons y ys ih =>
    by_cases hxy : x.relevance_score ≤ y.relevance_score
    · rw [insertDesc, if_pos hxy]
      exact (ih.cons y).trans (List.Perm.swap x y ys)
    · rw [insertDesc, if_neg hxy]

theorem foldl_insertDesc_perm (l : List RankedItem) :
    ∀ acc, List.Perm (l.foldl (fun acc x => insertDesc x acc) acc) (acc ++ l) := by
  induction l with
  | nil => intro acc; rw [List.foldl_nil, List.append_nil]
  | cons x l ih =>
    intro acc
    rw [List.foldl_cons]
    refine (ih (insertDesc x acc)).trans ?_
    refine ((insertDesc_perm x acc).append_right l).trans ?_
    exact List.perm_middle.symm

theorem foldl_insertDesc_sorted (l : List RankedItem) :
    ∀ acc, List.Pairwise DescOrd acc →
      List.Pairwise DescOrd (l.foldl (fun acc x => insertDesc x acc) acc) := by
  induction l with
  | nil => intro acc h; exact h
  | cons x l ih =>
    intro acc h
    rw [List.foldl_cons]
    exact ih (insertDesc x acc) (insertDesc_sorted h)

theorem pySortDesc_perm (l : List RankedItem) : List.Perm (pySortDesc l) l :=
  foldl_insertDesc_perm l []

theorem pySortDesc_sorted (l : List RankedItem) :
    List.Pairwise DescOrd (pySortDesc l) :=
  foldl_insertDesc_sorted l [] (List.Pairwise.nil)

theorem filter_insertDesc (s : Int) (x : RankedItem) (l : List RankedItem)
    (h : List.Pairwise DescOrd l) :
    (insertDesc x l).filter (fun y => decide (y.relevance_score = s))
      = l.filter (fun y => decide (y.relevance_score = s))
          ++ (if x.relevance_score = s then [x] else []) := by
  induction l with
  | nil =>
    rw [insertDesc, List.filter_cons, List.filter_nil]
    by_cases hx : x.relevance_score = s <;> simp [hx]
  | cons y ys ih =>
    rcases List.pairwise_cons.mp h with ⟨hy, hys⟩
    by_cases hxy : x.relevance_score ≤ y.relevance_score
    · rw [insertDesc, if_pos hxy, List.filter_cons, List.filter_cons]
      by_cases hpy : y.relevance_score = s <;> simp [hpy, ih hys]
    · rw [insertDesc, if_neg hxy, List.filter_cons]
      by_cases hpx : x.relevance_score = s
      · rw [if_pos (by simpa using hpx)]
        have hnil : (y :: ys).filter (fun y => decide (y.relevance_score = s)) = [] := by
          rw [List.filter_eq_nil_iff]
          intro a ha
          have hle : a.relevance_score ≤ y.relevance_score := by
            rcases List.mem_cons.mp ha with rfl | ha'
            · exact le_refl _
            · exact hy a ha'
          have hlt : y.relevance_score < x.relevance_score := not_le.mp hxy
          simp only [decide_eq_true_eq]
          omega
        rw [hnil, hpx]
        simp
      · rw [if_neg (by simpa using hpx)]
        simp [hpx]

theorem foldl_insertDesc_filter (s : Int) (l : List RankedItem) :
    ∀ acc, List.Pairwise DescOrd acc →
      (l.foldl (fun acc x => insertDesc x acc) acc).filter
          (fun y => decide (y.relevance_score = s))
        = acc.filter (fun y => decide (y.relevance_score = s))
            ++ l.filter (fun y => decide (y.relevance_score = s)) := by
  induction l with
  | nil => intro acc _; rw [List.foldl_nil, List.filter_nil, List.append_nil]
  | cons x l ih =>
    intro acc h
    rw [List.foldl_cons, ih (insertDesc x acc) (insertDesc_sorted h),
      filter_insertDesc s x acc h, List.filter_cons, List.append_assoc]
    by_cases hx : x.relevance_score = s <;> simp [hx]

/-- Stability of the sort: elements of any fixed score appear in the
sorted output in their arrival order. -/
theorem pySortDesc_stable (s : Int) (l : List RankedItem) :
    (pySortDesc l).filter (fun y => decide (y.relevance_score = s))
      = l.filter (fun y => decide (y.relevance_score = s)) :=
  foldl_insertDesc_filter s l [] (List.Pairwise.nil)

/-! ## `agents/weekly_scheduler_agent.py`: `compile_weekly_schedule`

Dates are modelled as day numbers (`Nat`) with `weekday d = d % 7` and
Monday = 0, mirroring Python's `datetime.weekday()`; "today" is a
parameter standing for `datetime.now(timezone.utc)`.  The JSON-decoding
wrapper and the `%Y-%m-%d` formatting of dates are elided: a schedule
entry carries the scheduled day number itself. -/

def WEEKDAYS : List String :=
  ["Monday", "Tuesday", "Wednesday", "Thursday", "Friday", "Saturday", "Sunday"]

/-- One decoded draft object as read by the scheduler
(`draft.get("draft_id"/"content"/"human_lines", "")`). -/
structure SchedDraft where
  draft_id : String
  content : String
  human_lines : String
deriving DecidableEq

/-- One entry of the compiled schedule. -/
structure SchedEntry where
  draft_id : String
  content : String
  human_lines : String
  scheduled_day : String
  scheduled_date : Nat
deriving DecidableEq

/-- The result dict of `compile_weekly_schedule` (`schedule`, the
`message` present only in the empty case, and `week_starting` present
only in the non-empty case). -/
structure ScheduleResult where
  schedule : List SchedEntry
  message : Option String
  week_starting : Option Nat
deriving DecidableEq

/-- `days_until_monday = (7 - today.weekday()) % 7`, with `0` bumped
to `7`. -/
def daysUntilMonday (todayWeekday : Nat) : Nat :=
  let d := (7 - todayWeekday % 7) % 7
  if d = 0 then 7 else d

/-- The week start: `today + timedelta(days=days_until_monday)`. -/
def weekStart (today : Nat) : Nat :=
  today + daysUntilMonday (today % 7)

/-- The entry built for one draft on day index `dayIndex`. -/
def mkSchedEntry (start : Nat) (d : SchedDraft) (dayIndex : Nat) : SchedEntry :=
  { draft_id := d.draft_id
    content := d.content
    human_lines := d.human_lines
    scheduled_day := WEEKDAYS.getD dayIndex ""
    scheduled_date := start + dayIndex }

/-- The scheduling loop of `compile_weekly_schedule`: walk the drafts in
order; stop when `day_index >= 7`; after every 2 assignments move to the
next day (`max_per_day = 2`). -/
def schedLoop (start : Nat) : List SchedDraft → Nat → Nat → List SchedEntry
  | [], _, _ => []
  | d :: rest, dayIndex, postsToday =>
    if 7 ≤ dayIndex then []
    else
      let e := mkSchedEntry start d dayIndex
      if 2 ≤ postsToday + 1 then e :: schedLoop start rest (dayIndex + 1) 0
      else e :: schedLoop start rest dayIndex (postsToday + 1)

/-- Model of `compile_weekly_schedule` in
`agents/weekly_scheduler_agent.py` (on an already-decoded draft list). -/
def compile_weekly_schedule (drafts : List SchedDraft) (today : Nat) : ScheduleResult :=
  if drafts = [] then
    { schedule := []
      message := some "No approved drafts to schedule."
      week_starting := none }
  else
    { schedule := schedLoop (weekStart today) drafts 0 0
      message := none
      week_starting := some (weekStart today) }

/-- Capacity left when standing at `dayIndex` with `postsToday` already
posted: `2 * (7 - dayIndex) - postsToday` (Nat subtraction). -/
def schedCap (dayIndex postsToday : Nat) : Nat :=
  2 * (7 - dayIndex) - postsToday

/-- Closed form of the scheduling loop: the `k`-th scheduled draft
(0-indexed within the remaining capacity) goes to day
`dayIndex + (postsToday + k) / 2`. -/
theorem schedLoop_closed (start : Nat) :
    ∀ (drafts : List SchedDraft) (di pt : Nat), pt < 2 →
      schedLoop start drafts di pt
        = (drafts.enum.take (schedCap di pt)).map
            (fun kd => mkSchedEntry start kd.2 (di + (pt + kd.1) / 2)) := by
  intro drafts
  induction drafts with
  | nil => intro di pt _; simp [schedLoop]
  | cons d rest ih =>
    intro di pt hpt
    by_cases hdi : 7 ≤ di
    · have hcap : schedCap di pt = 0 := by
        rw [schedCap]
        omega
      rw [schedLoop, if_pos hdi, hcap]
      simp
    · have hcappos : 0 < schedCap di pt := by
        rw [schedCap]; omega
      rw [schedLoop, if_neg hdi]
      have henum : (d :: rest).enum
          = (0, d) :: rest.enum.map (fun kd => (kd.1 + 1, kd.2)) := by
        rw [List.enum_cons']
        rfl
      rw [henum]
      by_cases hpt1 : 2 ≤ pt + 1
      · -- postsToday was 1: advance to the next day
        have hpt' : pt = 1 := by omega
        rw [if_pos hpt1, ih (di + 1) 0 (by omega)]
        have hcap2 : schedCap di pt = schedCap (di + 1) 0 + 1 := by
          rw [schedCap, schedCap]; omega
        rw [hcap2, List.take_succ_cons, ← List.map_take, List.map_cons, List.map_map]
        subst hpt'
        refine congrArg₂ _ (congrArg (mkSchedEntry start d) (by omega)) ?_
        apply List.map_congr_left
        intro kd _
        show mkSchedEntry start kd.2 (di + 1 + (0 + kd.1) / 2)
            = mkSchedEntry start kd.2 (di + (1 + (kd.1 + 1)) / 2)
        exact congrArg (mkSchedEntry start kd.2) (by omega)
      · -- postsToday was 0: stay on the same day
        have hpt' : pt = 0 := by omega
        rw [if_neg hpt1, ih di (pt + 1) (by omega)]
        have hcap2 : schedCap di pt = schedCap di (pt + 1) + 1 := by
          rw [schedCap, schedCap]; omega
        rw [hcap2, List.take_succ_cons, ← List.map_take, List.map_cons, List.map_map]
        subst hpt'
        refine congrArg₂ _ (congrArg (mkSchedEntry start d) (by omega)) ?_
        apply List.map_congr_left
        intro kd _
        show mkSchedEntry start kd.2 (di + (0 + 1 + kd.1) / 2)
            = mkSchedEntry start kd.2 (di + (0 + (kd.1 + 1)) / 2)
        exact congrArg (mkSchedEntry start kd.2) (by omega)

/-- The schedule of a compiled result, in closed form: the `k`-th draft
(0-indexed) of the first 14 is scheduled on day index `k / 2`. -/
theorem compile_schedule_eq (drafts : List SchedDraft) (today : Nat) :
    (compile_weekly_schedule drafts today).schedule
      = (drafts.enum.take 14).map
          (fun kd => mkSchedEntry (weekStart today) kd.2 (kd.1 / 2)) := by
  by_cases h : drafts = []
  · subst h
    simp [compile_weekly_schedule]
  · rw [compile_weekly_schedule, if_neg h]
    show schedLoop (weekStart today) drafts 0 0 = _
    rw [schedLoop_closed (weekStart today) drafts 0 0 (by omega)]
    have hcap : schedCap 0 0 = 14 := rfl
    rw [hcap]
    apply List.map_congr_left
    intro kd _
    exact congrArg (mkSchedEntry _ kd.2) (by omega)

theorem compile_schedule_length (drafts : List SchedDraft) (today : Nat) :
    (compile_weekly_schedule drafts today).schedule.length = min drafts.length 14 := by
  rw [compile_schedule_eq]
  simp [List.length_take]
  omega

theorem compile_schedule_days (drafts : List SchedDraft) (today : Nat) :
    (compile_weekly_schedule drafts today).schedule.map (fun e => e.scheduled_day)
      = (List.range (min drafts.length 14)).map (fun k => WEEKDAYS.getD (k / 2) "") := by
  rw [compile_schedule_eq, List.map_map]
  have h1 : ((fun e : SchedEntry => e.scheduled_day)
        ∘ (fun kd : Nat × SchedDraft => mkSchedEntry (weekStart today) kd.2 (kd.1 / 2)))
      = (fun k : Nat => WEEKDAYS.getD (k / 2) "") ∘ Prod.fst := rfl
  rw [h1, ← List.map_map]
  have h2 : List.map Prod.fst (drafts.enum.take 14)
      = List.range (min drafts.length 14) := by
    rw [List.map_take]
    have h3 : List.map Prod.fst drafts.enum = List.range drafts.length := by
      rw [List.enum_eq_enumFrom, List.enumFrom_map_fst, List.range_eq_range']
    rw [h3, List.take_range, Nat.min_comm]
  rw [h2]

theorem compile_count_day (drafts : List SchedDraft) (today j : Nat) (hj : j < 7) :
    (compile_weekly_schedule drafts today).schedule.countP
        (fun e => decide (e.scheduled_day = WEEKDAYS.getD j "")) ≤ 2 := by
  have h1 : (compile_weekly_schedule drafts today).schedule.countP
        (fun e => decide (e.scheduled_day = WEEKDAYS.getD j ""))
      = ((compile_weekly_schedule drafts today).schedule.map
          (fun e => e.scheduled_day)).countP
            (fun s => decide (s = WEEKDAYS.getD j "")) := by
    rw [List.countP_map]
    rfl
  rw [h1, compile_schedule_days, List.countP_map]
  have h2 : List.Sublist (List.range (min drafts.length 14)) (List.range 14) :=
    List.range_sublist.mpr (by omega)
  refine le_trans (h2.countP_le _) ?_
  interval_cases j <;> decide

theorem weekStart_spec (t : Nat) :
    t < weekStart t ∧ weekStart t ≤ t + 7 ∧ weekStart t % 7 = 0
      ∧ (t % 7 = 0 → weekStart t = t + 7) := by
  have hd : daysUntilMonday (t % 7)
      = if (7 - t % 7 % 7) % 7 = 0 then 7 else (7 - t % 7 % 7) % 7 := rfl
  rw [weekStart, hd]
  by_cases h0 : (7 - t % 7 % 7) % 7 = 0
  · rw [if_pos h0]
    exact ⟨by omega, by omega, by omega, fun _ => rfl⟩
  · rw [if_neg h0]
    exact ⟨by omega, by omega, by omega, fun h => by omega⟩


end XCC

/-! # Theorems -/

namespace XCC

/-- Claim C1 (code_bug): the claim — and the function's own docstring and
unit tests — say the limit is 280 (so `"x" * 300` must report
`within_limit = false`, `over_by = 20`), but the code compares against
4000: on the 300-character input it reports `within_limit = true` and
`over_by = 0`, while the spec-modelled check reports
`within_limit = false` and `over_by = 20`. -/
theorem C1_code_bug_eval :
    (check_character_limit (String.mk (List.replicate 300 'x'))).within_limit = true
    ∧ (check_character_limit (String.mk (List.replicate 300 'x'))).over_by = 0
    ∧ (check_character_limit_spec (String.mk (List.replicate 300 'x'))).within_limit = false
    ∧ (check_character_limit_spec (String.mk (List.replicate 300 'x'))).over_by = 20
    ∧ (check_character_limit (String.mk (List.replicate 280 'x'))).within_limit = true
    ∧ (check_character_limit_spec (String.mk (List.replicate 280 'x'))).within_limit = true := by
  refine ⟨?_, ?_, ?_, ?_, ?_, ?_⟩ <;> decide

/-- Claim C5 (confirmed): the fingerprint is the first 16 hex characters
of the SHA-256 digest of the whitespace-trimmed URL; it is a pure
function of the URL (hence deterministic) and insensitive to surrounding
whitespace, in particular
`url_to_id("  https://x.com/a  ") = url_to_id("https://x.com/a")`. -/
theorem C5_url_fingerprint :
    (∀ u : String,
      url_to_id u = String.mk ((SHA256.hexdigest (utf8Encode (pyStrip u))).take 16))
    ∧ (∀ u : String, url_to_id (pyStrip u) = url_to_id u)
    ∧ url_to_id "  https://x.com/a  " = url_to_id "https://x.com/a" := by
  have hstrip : ∀ u : String, url_to_id (pyStrip u) = url_to_id u := by
    intro u
    simp only [url_to_id, pyStrip_idempotent]
  refine ⟨fun u => rfl, hstrip, ?_⟩
  have h := hstrip "  https://x.com/a  "
  have heq : pyStrip "  https://x.com/a  " = "https://x.com/a" := by decide
  rw [heq] at h
  exact h.symm

/-- Claim C6 (confirmed): a draft created without an explicitly supplied
identity (empty `draft_id`) gets the deterministic identity
`item_id.replace("/", "_") + "_v" + str(variant)`; in particular
`derive_id("abc123", 1) = "abc123_v1"`, and path separators are replaced. -/
theorem C6_draft_id_derivation :
    (∀ item_id : String, ∀ variant : Nat,
      derive_draft_id "" item_id variant
        = String.mk (item_id.data.map fun c => if c = '/' then '_' else c)
            ++ "_v" ++ toString variant)
    ∧ derive_draft_id "" "abc123" 1 = "abc123_v1"
    ∧ derive_draft_id "" "a/b/c" 2 = "a_b_c_v2" := by
  refine ⟨fun item_id variant => rfl, ?_, ?_⟩ <;> decide

/-- Claim C7 counterexample: the claim says sanitize "strips ASCII
control characters except newline" and "hard-truncates input over 2000
characters to 2000 characters plus an ellipsis marker".  But carriage
return (`\x0d`, an ASCII control character distinct from `\n`) survives:
`sanitize("a\rb") = "a\rb"`.  And the 2503-character input `C7bigInput`
(whose HTML-decoded text is only 503 characters) is not truncated at
all: its sanitized output has 503 characters, not 2000 plus the
marker. -/
theorem C7_counterexample :
    (sanitize_for_prompt "a\rb" = "a\rb" ∧ '\r'.toNat = 13 ∧ '\r' ≠ '\n')
    ∧ C7bigInput.length = 2503
    ∧ (sanitize_for_prompt C7bigInput).length = 503
    ∧ '\r' ∈ (sanitize_for_prompt C7bigInput).data := by
  refine ⟨⟨by decide, by decide, by decide⟩, C7big_len, ?_, ?_⟩
  · rw [C7big_sanitize]
    show C7decoded.length = 503
    simp [C7decoded]
  · rw [C7big_sanitize]
    show '\r' ∈ C7decoded
    simp [C7decoded]

/-- Claim C7 as amended: for every input string, sanitize decodes HTML
entities (`sanitize("&amp;&lt;&gt;") = "&<>"`), strips the ASCII control
characters other than newline and carriage return (so `\x00` and `\x01`
are removed while newlines are preserved), hard-truncates the decoded,
control-stripped text over 2000 characters to 2000 characters plus an
ellipsis marker (so the output never exceeds 2003 characters), and trims
surrounding whitespace; it is a pure function (a Lean function of the
input string alone) and is the identity — hence idempotent — on
already-clean input. -/
theorem C7_sanitize_amended :
    sanitize_for_prompt "&amp;&lt;&gt;" = "&<>"
    ∧ sanitize_for_prompt "a\x00b\x01c\nd" = "abc\nd"
    ∧ (∀ text : String, ∀ c ∈ (sanitize_for_prompt text).data,
        isStrippedControl c = false)
    ∧ (∀ text : String, (sanitize_for_prompt text).length ≤ 2003)
    ∧ (∀ text : String,
        pyStripChars (sanitize_for_prompt text).data = (sanitize_for_prompt text).data)
    ∧ (∀ text : String, '&' ∉ text.data →
        (∀ c ∈ text.data, isStrippedControl c = false) →
        text.length ≤ 2000 →
        pyStripChars text.data = text.data →
        sanitize_for_prompt text = text) := by
  exact ⟨by decide, by decide, sanitize_no_control, sanitize_length_le,
    sanitize_stripped, sanitize_clean_id⟩

/-- Claim C4 (confirmed): shortlisting keeps exactly the items scoring
at least 60 (when they fit, the result is a permutation of the qualified
items and contains nothing else), sorted descending by score with ties
stable (arrival order preserved), truncated to at most `max_n`; on
scores `[95, 61, 59, 80, 60]` with `max_n = 10` it returns the items
scored `[95, 80, 61, 60]`, dropping the 59-scored item, and equal-score
items keep their arrival order. -/
theorem C4_shortlist :
    (∀ items : List RankedItem, ∀ max_items : Nat,
      (shortlist_top_items items max_items).length ≤ max_items)
    ∧ (∀ items : List RankedItem, ∀ max_items : Nat, ∀ x : RankedItem,
        x ∈ shortlist_top_items items max_items →
          60 ≤ x.relevance_score ∧ x ∈ items)
    ∧ (∀ items : List RankedItem, ∀ max_items : Nat,
        List.Pairwise DescOrd (shortlist_top_items items max_items))
    ∧ (∀ items : List RankedItem, ∀ max_items : Nat,
        (items.filter qualifies).length ≤ max_items →
          List.Perm (shortlist_top_items items max_items) (items.filter qualifies))
    ∧ (∀ items : List RankedItem, ∀ s : Int,
        (pySortDesc (items.filter qualifies)).filter
            (fun y => decide (y.relevance_score = s))
          = (items.filter qualifies).filter (fun y => decide (y.relevance_score = s)))
    ∧ shortlist_top_items
        [⟨95, 0⟩, ⟨61, 1⟩, ⟨59, 2⟩, ⟨80, 3⟩, ⟨60, 4⟩] 10
        = [⟨95, 0⟩, ⟨80, 3⟩, ⟨61, 1⟩, ⟨60, 4⟩]
    ∧ shortlist_top_items [⟨60, 0⟩, ⟨95, 1⟩, ⟨60, 2⟩] 10
        = [⟨95, 1⟩, ⟨60, 0⟩, ⟨60, 2⟩] := by
  refine ⟨?_, ?_, ?_, ?_, ?_, by decide, by decide⟩
  · intro items max_items
    exact List.length_take_le _ _
  · intro items max_items x hx
    have h1 : x ∈ pySortDesc (items.filter qualifies) :=
      (List.take_sublist _ _).subset hx
    have h2 : x ∈ items.filter qualifies := (pySortDesc_perm _).subset h1
    have h3 := List.mem_filter.mp h2
    exact ⟨by simpa [qualifies] using h3.2, h3.1⟩
  · intro items max_items
    exact List.Pairwise.sublist (List.take_sublist _ _) (pySortDesc_sorted _)
  · intro items max_items hlen
    have hlen2 : (pySortDesc (items.filter qualifies)).length
        = (items.filter qualifies).length := (pySortDesc_perm _).length_eq
    rw [shortlist_top_items, List.take_of_length_le (by omega)]
    exact pySortDesc_perm _
  · intro items s
    exact pySortDesc_stable s (items.filter qualifies)

/-- Witness for C4: the theorem applied at concrete inputs. -/
theorem C4_shortlist_witness :
    List.Perm (shortlist_top_items [⟨70, 0⟩] 5) ([(⟨70, 0⟩ : RankedItem)].filter qualifies)
    ∧ (60 ≤ (⟨95, 0⟩ : RankedItem).relevance_score
        ∧ (⟨95, 0⟩ : RankedItem) ∈ [(⟨95, 0⟩ : RankedItem)]) :=
  ⟨C4_shortlist.2.2.2.1 [⟨70, 0⟩] 5 (by decide),
   C4_shortlist.2.1 [⟨95, 0⟩] 3 ⟨95, 0⟩ (by decide)⟩

/-- Claim C8 (confirmed): on an empty draft list the compiler returns an
empty schedule with a descriptive no-posts message; otherwise the week
starts at the next Monday strictly after today (`days_until_monday = 0`
becomes 7, so a Monday jumps a full week; in the day-number model Monday
means `day % 7 = 0`); the drafts are walked in order with the `k`-th
draft (0-indexed) assigned to day index `k / 2` (2 consecutive drafts
per weekday, Monday through Sunday), only the first 14 drafts are
scheduled (7 days × 2), no weekday receives more than 2 entries, and 5
drafts span exactly 3 distinct weekdays. -/
theorem C8_weekly_schedule :
    (∀ today : Nat, compile_weekly_schedule [] today
        = { schedule := []
            message := some "No approved drafts to schedule."
            week_starting := none })
    ∧ (∀ today : Nat, today < weekStart today ∧ weekStart today ≤ today + 7
        ∧ weekStart today % 7 = 0
        ∧ (today % 7 = 0 → weekStart today = today + 7))
    ∧ (∀ drafts : List SchedDraft, ∀ today : Nat, drafts ≠ [] →
        (compile_weekly_schedule drafts today).week_starting
          = some (weekStart today)
        ∧ (compile_weekly_schedule drafts today).message = none)
    ∧ (∀ drafts : List SchedDraft, ∀ today : Nat,
        (compile_weekly_schedule drafts today).schedule
          = (drafts.enum.take 14).map
              (fun kd => mkSchedEntry (weekStart today) kd.2 (kd.1 / 2)))
    ∧ (∀ drafts : List SchedDraft, ∀ today : Nat,
        (compile_weekly_schedule drafts today).schedule.length
          = min drafts.length 14)
    ∧ (∀ drafts : List SchedDraft, ∀ today j : Nat, j < 7 →
        (compile_weekly_schedule drafts today).schedule.countP
            (fun e => decide (e.scheduled_day = WEEKDAYS.getD j "")) ≤ 2)
    ∧ (∀ drafts : List SchedDraft, ∀ today : Nat, drafts.length = 5 →
        ((compile_weekly_schedule drafts today).schedule.map
            (fun e => e.scheduled_day)).dedup.length = 3) := by
  refine ⟨fun today => rfl, weekStart_spec, ?_, compile_schedule_eq,
    compile_schedule_length, compile_count_day, ?_⟩
  · intro drafts today h
    rw [compile_weekly_schedule, if_neg h]
    exact ⟨rfl, rfl⟩
  · intro drafts today h5
    rw [compile_schedule_days, h5]
    decide

/-- Claim C2 counterexample: the claim says a 429 leads to a retry that
"does not count against the attempt bound (the retry loop continues)".
But the 429 branch's `continue` advances the bounded
`for attempt in range(3)` loop: after three 429 responses the call
raises the generic retry-exhausted error — the fourth request, which
would have returned 200, is never made. -/
theorem C2_counterexample :
    request_with_retry
        (fun n => if n < 3 then NetEvent.resp 429 none else NetEvent.resp 200 none)
      = (ReqOutcome.raised ReqError.genericFailure, [2, 4, 8]) := by
  decide

/-- Claim C2 as amended: connection/timeout errors, 5xx responses and
429 responses are the retryable events; every retryable event causes a
sleep (for a 429 the Retry-After duration when the header is present,
otherwise the exponential backoff `base ^ (attempt + 1)` with attempts
0-indexed, like the other retryable events) followed by another attempt
that counts against the fixed bound of 3 attempts — including for 429 —
so three retryable outcomes exhaust the call and raise; a 2xx after a
retryable prefix succeeds; and any other 4xx (including after a
retryable prefix) is never retried and propagates immediately with no
further sleep. -/
theorem C2_retry_amended :
    (retryable NetEvent.netErr = true
      ∧ (∀ ra : Option Nat, retryable (NetEvent.resp 429 ra) = true)
      ∧ (∀ code : Nat, ∀ ra : Option Nat, 500 ≤ code →
          retryable (NetEvent.resp code ra) = true)
      ∧ (∀ code : Nat, ∀ ra : Option Nat, 400 ≤ code → code < 500 → code ≠ 429 →
          retryable (NetEvent.resp code ra) = false))
    ∧ (∀ a : Nat, sleepOf NetEvent.netErr a = 2 ^ (a + 1))
    ∧ (∀ r a : Nat, sleepOf (NetEvent.resp 429 (some r)) a = r)
    ∧ (∀ a : Nat, sleepOf (NetEvent.resp 429 none) a = 2 ^ (a + 1))
    ∧ (∀ events : Nat → NetEvent,
        (∀ i, i < 3 → retryable (events i) = true) →
        ∃ e : ReqError, request_with_retry events
          = (ReqOutcome.raised e,
             [sleepOf (events 0) 0, sleepOf (events 1) 1, sleepOf (events 2) 2]))
    ∧ (∀ events : Nat → NetEvent, ∀ k code : Nat, ∀ ra : Option Nat, k < 3 →
        (∀ i, i < k → retryable (events i) = true) →
        events k = NetEvent.resp code ra → 400 ≤ code → code < 500 → code ≠ 429 →
        request_with_retry events
          = (ReqOutcome.raised (ReqError.statusErr code),
             (List.range' 0 k).map (fun i => sleepOf (events i) i)))
    ∧ (∀ events : Nat → NetEvent, ∀ k code : Nat, ∀ ra : Option Nat, k < 3 →
        (∀ i, i < k → retryable (events i) = true) →
        events k = NetEvent.resp code ra → 200 ≤ code → code < 300 →
        request_with_retry events
          = (ReqOutcome.ok code,
             (List.range' 0 k).map (fun i => sleepOf (events i) i))) := by
  refine ⟨⟨rfl, fun ra => rfl, ?_, ?_⟩, fun a => rfl, fun r a => rfl, fun a => rfl,
    ?_, ?_, ?_⟩
  · intro code ra h500
    rw [retryable]
    simp only [Bool.or_eq_true, decide_eq_true_eq]
    omega
  · intro code ra h4 h5 h429
    rw [retryable]
    have hn1 : ¬ code = 429 := h429
    have hn2 : ¬ 500 ≤ code := by omega
    simp [hn1, hn2]
  · intro events hall
    obtain ⟨le', h⟩ := retryLoop_skip events 3 3 0 none (le_refl _)
      (fun i _ h2 => hall i (by omega))
    refine ⟨le'.getD ReqError.genericFailure, ?_⟩
    rw [request_with_retry, MAX_RETRIES, h]
    have h0 : retryLoop events (3 - 3) (0 + 3) le'
        = (ReqOutcome.raised (le'.getD ReqError.genericFailure), []) := rfl
    rw [h0]
    rfl
  · intro events k code ra hk hall he h4 h5 h429
    obtain ⟨le', h⟩ := retryLoop_skip events k 3 0 none (by omega)
      (fun i _ h2 => hall i (by omega))
    rw [request_with_retry, MAX_RETRIES, h]
    obtain ⟨m, hm⟩ : ∃ m, 3 - k = m + 1 := ⟨2 - k, by omega⟩
    rw [hm]
    have hcl := retryLoop_client_error events m (0 + k) le' code ra
      (by rwa [Nat.zero_add]) h4 h5 h429
    rw [hcl]
    simp
  · intro events k code ra hk hall he h2 h3
    obtain ⟨le', h⟩ := retryLoop_skip events k 3 0 none (by omega)
      (fun i _ hi2 => hall i (by omega))
    rw [request_with_retry, MAX_RETRIES, h]
    obtain ⟨m, hm⟩ : ∃ m, 3 - k = m + 1 := ⟨2 - k, by omega⟩
    rw [hm]
    have hs := retryLoop_success events m (0 + k) le' code ra
      (by rwa [Nat.zero_add]) h2 h3
    rw [hs]
    simp

/-- Claim C3 (confirmed): the inter-stage payload decoder is a total
function into lists (it never raises): a list is returned as-is; a
string is parsed by taking the first-`[`-to-last-`]` span as a JSON
array, falling back to the first-`{`-to-last-`}` span as one object
wrapped in a one-element list; anything else — a non-list non-string
value, or any parse failure — yields `[]`.  In particular
`'garbage [{"a":1}] trailing'` decodes to `[{"a": 1}]` and a non-JSON
string decodes to `[]`. -/
theorem C3_parse_json_from_state :
    (∀ l : List JVal, parse_json_from_state (StateVal.list l) = l)
    ∧ parse_json_from_state StateVal.other = []
    ∧ parse_json_from_state (StateVal.str "garbage [\x7b\"a\":1\x7d] trailing")
        = [JVal.obj [("a", JVal.num 1 [] 0)]]
    ∧ parse_json_from_state (StateVal.str "this is not json") = []
    ∧ parse_json_from_state (StateVal.str "  \x7b\"k\": true\x7d ")
        = [JVal.obj [("k", JVal.bool true)]]
    ∧ parse_json_from_state (StateVal.str "[1, 2] junk [3")
        = [JVal.num 1 [] 0, JVal.num 2 [] 0] := by
  refine ⟨fun l => rfl, rfl, ?_, ?_, ?_, ?_⟩ <;> rfl

/-- Claim C9 (confirmed): each quality result resolves to a draft by
exact identity match against the pending draft identities first, then by
positional fallback (the `idx`-th result maps to the `idx`-th pending
identity), else it is dropped; and the drafts-passed-quality count is
exactly the number of results that are both resolved and passed, so a
result that resolves neither way never increments it. -/
theorem C9_quality_resolution :
    (∀ ids : List String, ∀ idx : Nat, ∀ d : String, d ∈ ids →
        resolveDraftId ids idx d = some d)
    ∧ (∀ ids : List String, ∀ idx : Nat, ∀ d : String, d ∉ ids →
        idx < ids.length → resolveDraftId ids idx d = some (ids.getD idx ""))
    ∧ (∀ ids : List String, ∀ idx : Nat, ∀ d : String, d ∉ ids →
        ids.length ≤ idx → resolveDraftId ids idx d = none)
    ∧ (∀ qrs : List QualityResultData, ∀ ids : List String,
        applyQualityResults qrs ids
          = (qrs.enum.filterMap
                (fun iqr => (resolveDraftId ids iqr.1 iqr.2.draft_id).map
                  fun rid => (rid, iqr.2)),
             qrs.enum.countP
                (fun iqr =>
                  (resolveDraftId ids iqr.1 iqr.2.draft_id).isSome && iqr.2.passed))) := by
  refine ⟨?_, ?_, ?_, ?_⟩
  · intro ids idx d hd
    rw [resolveDraftId, if_pos hd]
  · intro ids idx d hd hidx
    rw [resolveDraftId, if_neg hd, if_pos hidx]
  · intro ids idx d hd hidx
    rw [resolveDraftId, if_neg hd, if_neg (by omega)]
  · intro qrs ids
    rw [applyQualityResults, applyQualityAux_spec ids qrs 0, List.enum_eq_enumFrom]

/-- Witness for C9: the theorem applied at concrete inputs. -/
theorem C9_quality_resolution_witness :
    resolveDraftId ["a_v1", "b_v1"] 5 "b_v1" = some "b_v1"
    ∧ resolveDraftId ["a_v1", "b_v1"] 1 "zzz" = some "b_v1"
    ∧ resolveDraftId ["a_v1", "b_v1"] 2 "zzz" = none :=
  ⟨C9_quality_resolution.1 ["a_v1", "b_v1"] 5 "b_v1" (by decide),
   C9_quality_resolution.2.1 ["a_v1", "b_v1"] 1 "zzz" (by decide) (by decide),
   C9_quality_resolution.2.2.1 ["a_v1", "b_v1"] 2 "zzz" (by decide) (by decide)⟩

/-- Claim C10 (confirmed): the content validator accepts any string
unchanged (it only logs), so constructing a `DraftPost` with content
longer than 280 characters succeeds whenever the other field validators
do (variant in 1..2), and the persistence stage stores such a draft with
status pending, content unchanged — no length precondition exists. -/
theorem C10_over_limit_drafts :
    (∀ v : String, content_length_check v = Except.ok v)
    ∧ (∀ item_id : String, ∀ variant : Nat, ∀ content : String,
        1 ≤ variant → variant ≤ 2 → content ≠ "" → 280 < content.length →
        ∃ d : DraftPost,
          persistDraftStep ⟨item_id, variant, content⟩ = some d
            ∧ d.content = content ∧ d.status = DraftStatus.pending
            ∧ d.item_id = item_id ∧ d.variant = variant) := by
  refine ⟨fun v => rfl, ?_⟩
  intro item_id variant content h1 h2 h3 _
  refine ⟨{ draft_id := derive_draft_id "" item_id variant
            item_id := item_id
            variant := variant
            content := content
            status := DraftStatus.pending
            quality_score := 0 }, ?_, rfl, rfl, rfl, rfl⟩
  show (if content = "" then none
    else (mkDraftPost item_id variant content).toOption) = _
  rw [if_neg h3, mkDraftPost, if_neg (by omega : ¬ (variant < 1 ∨ 2 < variant))]
  rfl

/-- Witness for C10: the theorem applied at a concrete 281-character
content. -/
theorem C10_over_limit_drafts_witness :
    ∃ d : DraftPost,
      persistDraftStep ⟨"item", 1, String.mk (List.replicate 281 'x')⟩ = some d
        ∧ d.content = String.mk (List.replicate 281 'x')
        ∧ d.status = DraftStatus.pending ∧ d.item_id = "item" ∧ d.variant = 1 :=
  C10_over_limit_drafts.2 "item" 1 (String.mk (List.replicate 281 'x'))
    (by decide) (by decide) (by decide) (by decide)

/-- Witness for C2: the amended theorem applied at concrete inputs. -/
theorem C2_retry_amended_witness :
    request_with_retry (fun _ => NetEvent.resp 404 none)
      = (ReqOutcome.raised (ReqError.statusErr 404), [])
    ∧ ∃ e : ReqError, request_with_retry (fun _ => NetEvent.resp 503 none)
        = (ReqOutcome.raised e, [2, 4, 8]) := by
  constructor
  · have h := C2_retry_amended.2.2.2.2.2.1 (fun _ => NetEvent.resp 404 none)
      0 404 none (by omega) (fun i hi => absurd hi (by omega)) rfl
      (by omega) (by omega) (by omega)
    simpa using h
  · obtain ⟨e, he⟩ := C2_retry_amended.2.2.2.2.1 (fun _ => NetEvent.resp 503 none)
      (fun i _ => rfl)
    exact ⟨e, by rw [he]; norm_num [sleepOf, RETRY_BACKOFF_BASE]⟩

/-- Witness for C8: the theorem applied at concrete inputs. -/
theorem C8_weekly_schedule_witness :
    ((compile_weekly_schedule [⟨"d1", "c1", ""⟩] 3).week_starting
        = some (weekStart 3)
      ∧ (compile_weekly_schedule [⟨"d1", "c1", ""⟩] 3).message = none)
    ∧ (compile_weekly_schedule (List.replicate 5 ⟨"d1", "c1", ""⟩) 0).schedule.countP
        (fun e => decide (e.scheduled_day = WEEKDAYS.getD 0 "")) ≤ 2
    ∧ ((compile_weekly_schedule (List.replicate 5 ⟨"d1", "c1", ""⟩) 0).schedule.map
        (fun e => e.scheduled_day)).dedup.length = 3 :=
  ⟨C8_weekly_schedule.2.2.1 [⟨"d1", "c1", ""⟩] 3 (by decide),
   C8_weekly_schedule.2.2.2.2.2.1 (List.replicate 5 ⟨"d1", "c1", ""⟩) 0 0 (by decide),
   C8_weekly_schedule.2.2.2.2.2.2 (List.replicate 5 ⟨"d1", "c1", ""⟩) 0 (by decide)⟩

/-- Witness for C7: the amended theorem applied at concrete inputs. -/
theorem C7_sanitize_amended_witness :
    sanitize_for_prompt "abc" = "abc" ∧ isStrippedControl 'x' = false :=
  ⟨C7_sanitize_amended.2.2.2.2.2 "abc" (by decide) (by decide) (by decide) (by decide),
   C7_sanitize_amended.2.2.1 "x" 'x' (by decide)⟩

end XCC
